import Mathlib

/-!
Verification of the Sigrid CI client (`sigridci.py`).

The Python source is shallowly embedded: paths and patterns are lists of
characters, JSON payloads are a small inductive type, the HTTP transport is
abstracted to a trace of raw responses (one per attempt), and each
process-terminating call (`sys.exit(1)`) or propagating exception is an
explicit outcome constructor.  Rating values are rationals.
-/

namespace Sigridci

/-! ## String helpers (Python `str` operations used by the client) -/

/-- `startsWithList n h` holds when `n` is a leading run of `h`
(Python's internal prefix test used by substring search). -/
def startsWithList : List Char → List Char → Bool
  | [], _ => true
  | _ :: _, [] => false
  | a :: as, b :: bs => a == b && startsWithList as bs

/-- Python's `needle in hay` substring test on strings. -/
def containsSub (needle : List Char) : List Char → Bool
  | [] => needle.isEmpty
  | c :: rest => startsWithList needle (c :: rest) || containsSub needle rest

/-- The mathematical reading of the substring test: `hay` splits around `needle`. -/
def IsSubstrP (needle hay : List Char) : Prop :=
  ∃ pre post, hay = pre ++ needle ++ post

/-- The character class removed by Python's `str.strip()` with no argument. -/
def pyIsSpace (c : Char) : Bool :=
  c == ' ' || c == '\t' || c == '\n' || c == '\r' || c == '\x0b' || c == '\x0c'

/-- Python `s.strip()`: whitespace removed from both ends. -/
def trimWs (s : List Char) : List Char :=
  ((s.dropWhile pyIsSpace).reverse.dropWhile pyIsSpace).reverse

/-- Python `s.strip(c)` for a single character `c`: every copy of `c`
removed from both ends. -/
def stripChar (c : Char) (s : List Char) : List Char :=
  ((s.dropWhile (· == c)).reverse.dropWhile (· == c)).reverse

/-- `filePath.replace("\\", "/")` from `SystemUploadPacker.isExcluded`. -/
def normalizeSep (s : List Char) : List Char :=
  s.map fun c => if c == '\\' then '/' else c

/-- `os.path.join(dir, rel)` for a relative second argument (POSIX separators). -/
def joinPath (dir rel : List Char) : List Char :=
  if dir.isEmpty then rel
  else if dir.getLast? == some '/' then dir ++ rel
  else dir ++ '/' :: rel

/-- The file-name component of a relative path: everything after the last `/`.
`os.walk` hands `prepareUpload` this component as `file`. -/
def baseName (p : List Char) : List Char :=
  (p.reverse.takeWhile (· != '/')).reverse

/-! ## SystemUploadPacker -/

/-- `SystemUploadPacker` after `__init__`: the active exclusion patterns and the
normalized path argument (`pathPrefix.strip("/")` in the source). -/
structure SystemUploadPacker where
  excludePatterns : List (List Char)
  pathPfx : List Char

/-- `SystemUploadPacker.DEFAULT_EXCLUDES`. -/
def defaultExcludes : List (List Char) :=
  ["coverage/".toList, "build/".toList, "dist/".toList, "node_modules/".toList,
   "sigridci/".toList, "sigrid-ci-output/".toList, "target/".toList,
   ".idea/".toList, ".jpg".toList, ".png".toList]

/-- `SystemUploadPacker.__init__(excludePatterns, useRepoHistory, pathPrefix)`:
defaults first, then the non-empty user patterns, then `.git` when history is
not to be uploaded; the path argument is stripped of leading/trailing `/`. -/
def mkUploadPacker (userPatterns : List (List Char)) (useRepoHistory : Bool)
    (pathArg : List Char) : SystemUploadPacker :=
  { excludePatterns :=
      defaultExcludes ++ userPatterns.filter (fun p => !p.isEmpty) ++
        (if useRepoHistory then [] else [".git".toList])
    pathPfx := stripChar '/' pathArg }

/-- `SystemUploadPacker.isExcluded`: some active pattern, stripped of
surrounding whitespace, occurs in the path once `\` is normalized to `/`. -/
def isExcluded (packer : SystemUploadPacker) (filePath : List Char) : Bool :=
  packer.excludePatterns.any fun pat => containsSub (trimWs pat) (normalizeSep filePath)

/-- `SystemUploadPacker.getUploadFilePath`. -/
def getUploadFilePath (packer : SystemUploadPacker) (relativePath : List Char) : List Char :=
  if packer.pathPfx.isEmpty then relativePath else packer.pathPfx ++ '/' :: relativePath

/-- The zip-entry names produced by the walk in
`SystemUploadPacker.prepareUpload`: `tree` lists the files of `sourceDir` by
path relative to the source root; a file is written unless its name equals
`outputFile` or the joined path `os.path.join(root, file)` is excluded. -/
def prepareUploadEntries (packer : SystemUploadPacker) (sourceDir : List Char)
    (tree : List (List Char)) (outputFile : List Char) : List (List Char) :=
  tree.filterMap fun rel =>
    if !(baseName rel == outputFile) && !isExcluded packer (joinPath sourceDir rel) then
      some (getUploadFilePath packer rel)
    else
      none

/-- Python's `round`: nearest integer, ties to the even integer. -/
def pyRound (q : ℚ) : ℤ :=
  if q - (⌊q⌋ : ℚ) < 1/2 then ⌊q⌋
  else if (1/2 : ℚ) < q - (⌊q⌋ : ℚ) then ⌊q⌋ + 1
  else if ⌊q⌋ % 2 = 0 then ⌊q⌋ else ⌊q⌋ + 1

/-- `max(round(os.path.getsize(outputFile) / 1024 / 1024), 1)` from
`prepareUpload`: the written archive's size in whole megabytes, at least 1. -/
def uploadSizeMB (sizeBytes : ℕ) : ℤ :=
  max (pyRound ((sizeBytes : ℚ) / 1024 / 1024)) 1

/-! ## JSON payloads -/

/-- The JSON values `json.loads` can hand back. -/
inductive Json where
  | null
  | bool (b : Bool)
  | num (q : ℚ)
  | str (s : String)
  | arr (elements : List Json)
  | obj (fields : List (String × Json))

/-- Python's `response == {}` test from `fetchAnalysisResults`. -/
def isEmptyObj : Json → Bool
  | .obj [] => true
  | _ => false

/-- `value[key]` on a parsed JSON object, `none` when the key is missing or
the value is not an object. -/
def jsonGet (v : Json) (key : String) : Option Json :=
  match v with
  | .obj fields => fields.lookup key
  | _ => none

/-! ## SigridApiClient -/

/-- The body of a 2xx response: empty, not valid JSON, or a JSON value. -/
inductive BodyContent where
  | emptyBody
  | malformed
  | jsonVal (v : Json)

/-- What one HTTP exchange can yield before the client interprets it:
an error status raised by `urllib` as `HTTPError`, a 204, or a 2xx body. -/
inductive RawResponse where
  | httpError (code : ℕ)
  | noContent
  | withBody (b : BodyContent)

/-- What `callSigridAPI` produces for its caller: the `HTTPError` it lets
propagate, the `JSONDecodeError` from `json.loads`, or a parsed value
(204 and an empty body both become `{}`). -/
inductive CallOutcome where
  | httpErr (code : ℕ)
  | jsonErr
  | ok (v : Json)

/-- `SigridApiClient.callSigridAPI` applied to one raw exchange. -/
def callSigridAPI : RawResponse → CallOutcome
  | .httpError c => .httpErr c
  | .noContent => .ok (Json.obj [])
  | .withBody .emptyBody => .ok (Json.obj [])
  | .withBody .malformed => .jsonErr
  | .withBody (.jsonVal v) => .ok v

/-- What `SigridApiClient.processHttpError` does with a status code:
`sys.exit(1)`, return normally, or `raise`. -/
inductive ErrorAction where
  | exitRun
  | continueRun
  | raiseExc

/-- `SigridApiClient.processHttpError`. -/
def processHttpError (code : ℕ) : ErrorAction :=
  if code = 401 ∨ code = 403 then .exitRun
  else if code = 404 then .continueRun
  else if 500 ≤ code then .exitRun
  else .raiseExc

/-- How one of the client's loops can end: a value returned normally,
`sys.exit(1)` from `processHttpError`, `sys.exit(1)` after the poll attempts
ran out, `sys.exit(1)` after the location retries ran out, or an exception
propagating out of the method. -/
inductive RunOutcome where
  | success (v : Json)
  | exitFatal
  | exitTimeout
  | exitUnavailable
  | exception

/-- A finished loop: its outcome, how many HTTP requests it attempted, and
the durations of the `time.sleep` calls it performed, in order. -/
structure ApiRun where
  outcome : RunOutcome
  calls : ℕ
  sleeps : List ℕ

/-- Account one request attempt followed by `time.sleep(POLL_INTERVAL)` to a
run (`POLL_INTERVAL = 60`). -/
def pollDelay (r : ApiRun) : ApiRun :=
  ⟨r.outcome, r.calls + 1, 60 :: r.sleeps⟩

/-- Account one request attempt with no sleep to a run. -/
def retryNow (r : ApiRun) : ApiRun :=
  ⟨r.outcome, r.calls + 1, r.sleeps⟩

/-- The loop body of `SigridApiClient.fetchAnalysisResults`: `attempt` numbers
the current request (indexing the response trace), the second argument is how
many of the `POLL_ATTEMPTS = 30` attempts remain.  A non-`{}` parsed value
returns; an HTTP error goes through `processHttpError` (404 falls through and
the loop sleeps and continues); a `JSONDecodeError` is caught and the loop
sleeps and continues; running out of attempts is `sys.exit(1)`. -/
def fetchGo (responses : ℕ → RawResponse) : ℕ → ℕ → ApiRun
  | _, 0 => ⟨.exitTimeout, 0, []⟩
  | attempt, rem + 1 =>
    match callSigridAPI (responses attempt) with
    | .ok v =>
      if isEmptyObj v then pollDelay (fetchGo responses (attempt + 1) rem)
      else ⟨.success v, 1, []⟩
    | .jsonErr => pollDelay (fetchGo responses (attempt + 1) rem)
    | .httpErr c =>
      match processHttpError c with
      | .exitRun => ⟨.exitFatal, 1, []⟩
      | .raiseExc => ⟨.exception, 1, []⟩
      | .continueRun => pollDelay (fetchGo responses (attempt + 1) rem)

/-- `SigridApiClient.fetchAnalysisResults`: 30 polling attempts. -/
def fetchAnalysisResults (responses : ℕ → RawResponse) : ApiRun :=
  fetchGo responses 0 30

/-- The raw responses the polling loop treats as "not ready yet": HTTP 204,
an empty body, a body parsing to the empty JSON object, HTTP 404, and a
malformed JSON body. -/
def transientResp : RawResponse → Bool
  | .noContent => true
  | .withBody .emptyBody => true
  | .withBody .malformed => true
  | .withBody (.jsonVal v) => isEmptyObj v
  | .httpError c => c == 404

/-- A concrete polling trace: two 404 responses, then a non-empty payload. -/
def pollTraceW : ℕ → RawResponse := fun i =>
  if i < 2 then RawResponse.httpError 404
  else RawResponse.withBody (BodyContent.jsonVal (Json.obj [("ok", Json.null)]))

/-- The loop body of `SigridApiClient.obtainUploadLocation`: a parsed value is
returned at once (there is no emptiness check here); HTTP 502 sleeps 60s and
retries; any other HTTP error goes through `processHttpError`, whose normal
return (404) lets the loop retry immediately; a `JSONDecodeError` is not
caught here and propagates; running out of the `RETRY_ATTEMPTS = 5` attempts
is `sys.exit(1)` ("Sigrid is currently unavailable"). -/
def obtainGo (responses : ℕ → RawResponse) : ℕ → ℕ → ApiRun
  | _, 0 => ⟨.exitUnavailable, 0, []⟩
  | attempt, rem + 1 =>
    match callSigridAPI (responses attempt) with
    | .ok v => ⟨.success v, 1, []⟩
    | .jsonErr => ⟨.exception, 1, []⟩
    | .httpErr c =>
      if c = 502 then pollDelay (obtainGo responses (attempt + 1) rem)
      else
        match processHttpError c with
        | .exitRun => ⟨.exitFatal, 1, []⟩
        | .raiseExc => ⟨.exception, 1, []⟩
        | .continueRun => retryNow (obtainGo responses (attempt + 1) rem)

/-- `SigridApiClient.obtainUploadLocation`: 5 attempts. -/
def obtainUploadLocation (responses : ℕ → RawResponse) : ApiRun :=
  obtainGo responses 0 5

/-- `SigridApiClient.uploadBinaryFile` given the PUT's response status:
`urllib` raises `HTTPError` on an error status (the method does not catch it,
so it propagates); otherwise the method reports whether the status is one of
200/201/202. -/
def uploadBinaryFile (status : ℕ) : Except Unit Bool :=
  if 400 ≤ status then Except.error ()
  else Except.ok (status == 200 || status == 201 || status == 202)

/-- How `SigridApiClient.submitUpload` can end: the size-cap exception from
`prepareUpload`, `sys.exit(1)` inside `obtainUploadLocation`, a propagating
exception, the "Uploading file failed" exception, or the analysis id. -/
inductive SubmitOutcome where
  | sizeError
  | locationFailed
  | exception
  | uploadFailed
  | submitted (analysisId : Json)

/-- `SigridApiClient.submitUpload`, with the archive build abstracted to the
byte size of the zip it writes (`archiveSizeBytes`) and the class constant
`MAX_UPLOAD_SIZE_MB` (500 in the source) as `maxMB`.  The second component
counts the HTTP requests performed. -/
def submitUpload (archiveSizeBytes : ℕ) (maxMB : ℤ) (locResponses : ℕ → RawResponse)
    (uploadStatus : ℕ) : SubmitOutcome × ℕ :=
  if uploadSizeMB archiveSizeBytes > maxMB then (.sizeError, 0)
  else
    match (obtainUploadLocation locResponses).outcome with
    | .success v =>
      match jsonGet v "uploadUrl", jsonGet v "ciRunId" with
      | some _, some analysisId =>
        (match uploadBinaryFile uploadStatus with
         | .error _ => (.exception, (obtainUploadLocation locResponses).calls + 1)
         | .ok true => (.submitted analysisId, (obtainUploadLocation locResponses).calls + 1)
         | .ok false => (.uploadFailed, (obtainUploadLocation locResponses).calls + 1))
      | _, _ => (.exception, (obtainUploadLocation locResponses).calls)
    | .exitFatal => (.locationFailed, (obtainUploadLocation locResponses).calls)
    | .exitUnavailable => (.locationFailed, (obtainUploadLocation locResponses).calls)
    | .exitTimeout => (.locationFailed, (obtainUploadLocation locResponses).calls)
    | .exception => (.exception, (obtainUploadLocation locResponses).calls)

/-! ## Report -/

/-- `Report.isPassed`: `value == None or value >= targetRating`, where the
ratings map yields `none` for an absent (or JSON-null) metric. -/
def isPassed (newCodeRatings : List (String × ℚ)) (metric : String)
    (targetRating : ℚ) : Bool :=
  match newCodeRatings.lookup metric with
  | none => true
  | some value => decide (targetRating ≤ value)

/-- `ExitCodeReport.generate` as the process exit status it causes: 0 when the
MAINTAINABILITY check passes (the method returns normally), 1 otherwise
(`sys.exit(1)`). -/
def exitCodeReportGenerate (newCodeRatings : List (String × ℚ)) (targetRating : ℚ) : ℕ :=
  if isPassed newCodeRatings "MAINTAINABILITY" targetRating then 0 else 1

/-- One refactoring candidate, `{subject, category, metric}`. -/
structure RefactoringCandidate where
  subject : String
  category : String
  metric : String
  deriving DecidableEq

/-- `Report.getRefactoringCandidates`.  `rcField` is
`feedback.get("refactoringCandidates", [])` (`none` when the key is absent);
`rcPerType` is the `refactoringCandidatesPerType` value, looked up with `[]`
indexing, so an absent key raises `KeyError` (the `error` case). -/
def getRefactoringCandidates (rcField : Option (List RefactoringCandidate))
    (rcPerType : Option (List (String × List String))) (metric : String) :
    Except Unit (List RefactoringCandidate) :=
  let relevant := (rcField.getD []).filter fun rc => rc.metric == metric
  match rcPerType with
  | none => Except.error ()
  | some perType =>
    Except.ok (relevant ++
      ((perType.lookup metric).getD []).map fun subject => ⟨subject, "introduced", metric⟩)

/-! ## Request headers (`callSigridAPI`) -/

/-- The 62 shared characters of the Base64 alphabets. -/
def b64Alphabet : List Char :=
  "ABCDEFGHIJKLMNOPQRSTUVWXYZabcdefghijklmnopqrstuvwxyz0123456789".toList

/-- The standard Base64 alphabet (RFC 4648 section 4). -/
def b64CharStd (n : ℕ) : Char :=
  if n = 62 then '+' else if n = 63 then '/' else b64Alphabet.getD n 'A'

/-- The URL-safe Base64 alphabet (RFC 4648 section 5), what
`base64.urlsafe_b64encode` uses. -/
def b64CharUrl (n : ℕ) : Char :=
  if n = 62 then '-' else if n = 63 then '_' else b64Alphabet.getD n 'A'

/-- Base64 encoding of a byte list over the given alphabet, `=`-padded. -/
def b64Blocks (alpha : ℕ → Char) : List ℕ → List Char
  | b0 :: b1 :: b2 :: rest =>
    alpha (b0 / 4) :: alpha (b0 % 4 * 16 + b1 / 16) ::
      alpha (b1 % 16 * 4 + b2 / 64) :: alpha (b2 % 64) :: b64Blocks alpha rest
  | [b0, b1] => [alpha (b0 / 4), alpha (b0 % 4 * 16 + b1 / 16), alpha (b1 % 16 * 4), '=']
  | [b0] => [alpha (b0 / 4), alpha (b0 % 4 * 16), '=', '=']
  | [] => []

/-- UTF-8 encoding of one character. -/
def utf8Char (c : Char) : List ℕ :=
  let n := c.toNat
  if n < 128 then [n]
  else if n < 2048 then [192 + n / 64, 128 + n % 64]
  else if n < 65536 then [224 + n / 4096, 128 + n / 64 % 64, 128 + n % 64]
  else [240 + n / 262144, 128 + n / 4096 % 64, 128 + n / 64 % 64, 128 + n % 64]

/-- Python `s.encode("utf8")`. -/
def utf8Bytes (s : String) : List ℕ :=
  (s.toList.map utf8Char).flatten

/-- The Authorization value built in `callSigridAPI`:
`b"Basic " + base64.urlsafe_b64encode(f"{account}:{token}".encode("utf8"))`. -/
def authHeaderValue (account token : String) : List Char :=
  "Basic ".toList ++ b64Blocks b64CharUrl (utf8Bytes (account ++ ":" ++ token))

/-- A request under construction: `urllib.request.Request` plus its headers. -/
structure ApiRequest where
  url : String
  headers : List (String × List Char)

/-- `request.add_header(key, value)`. -/
def addHeader (r : ApiRequest) (key : String) (value : List Char) : ApiRequest :=
  ⟨r.url, r.headers ++ [(key, value)]⟩

/-- The request `callSigridAPI` sends: `Request(url, None)`, then the Accept
header, then the Authorization header. -/
def buildSigridRequest (url account token : String) : ApiRequest :=
  addHeader (addHeader ⟨url, []⟩ "Accept" "application/json".toList)
    "Authorization" (authHeaderValue account token)

/-! ## Substring lemmas -/

theorem startsWithList_iff (n : List Char) : ∀ h : List Char,
    startsWithList n h = true ↔ ∃ t, h = n ++ t := by
  induction n with
  | nil =>
    intro h
    simp [startsWithList]
  | cons a as ih =>
    intro h
    cases h with
    | nil => simp [startsWithList]
    | cons b bs =>
      simp only [startsWithList, Bool.and_eq_true, beq_iff_eq, ih, List.cons_append,
        List.cons.injEq]
      constructor
      · rintro ⟨rfl, t, rfl⟩
        exact ⟨t, rfl, rfl⟩
      · rintro ⟨t, rfl, rfl⟩
        exact ⟨rfl, t, rfl⟩

theorem containsSub_iff (n : List Char) : ∀ h : List Char,
    containsSub n h = true ↔ IsSubstrP n h := by
  intro h
  induction h with
  | nil =>
    simp only [containsSub, List.isEmpty_iff, IsSubstrP]
    constructor
    · rintro rfl
      exact ⟨[], [], rfl⟩
    · rintro ⟨pre, post, e⟩
      rcases List.append_eq_nil.mp e.symm with ⟨e1, e2⟩
      rcases List.append_eq_nil.mp e1 with ⟨-, e3⟩
      exact e3
  | cons c r ih =>
    simp only [containsSub, Bool.or_eq_true, startsWithList_iff, ih, IsSubstrP]
    constructor
    · rintro (⟨t, ht⟩ | ⟨pre, post, he⟩)
      · exact ⟨[], t, by simp [ht]⟩
      · exact ⟨c :: pre, post, by simp [he]⟩
    · rintro ⟨pre, post, he⟩
      cases pre with
      | nil =>
        exact Or.inl ⟨post, by simpa using he⟩
      | cons c' pre' =>
        rcases List.cons.injEq .. ▸ he with ⟨-, he'⟩
        exact Or.inr ⟨pre', post, he'⟩

theorem containsSub_of_sub_append (n h t : List Char) (hc : containsSub n h = true) :
    containsSub n (h ++ t) = true := by
  rw [containsSub_iff] at hc ⊢
  obtain ⟨pre, post, rfl⟩ := hc
  exact ⟨pre, post ++ t, by simp⟩

theorem containsSub_of_middle (n u m w : List Char) (hc : containsSub n m = true) :
    containsSub n (u ++ m ++ w) = true := by
  rw [containsSub_iff] at hc ⊢
  obtain ⟨pre, post, rfl⟩ := hc
  exact ⟨u ++ pre, post ++ w, by simp⟩

theorem isExcluded_iff (packer : SystemUploadPacker) (path : List Char) :
    isExcluded packer path = true ↔
      ∃ pat ∈ packer.excludePatterns, IsSubstrP (trimWs pat) (normalizeSep path) := by
  simp only [isExcluded, List.any_eq_true, containsSub_iff]

theorem joinPath_eq_append (dir rel : List Char) : ∃ u, joinPath dir rel = dir ++ u := by
  unfold joinPath
  split
  · next hd => exact ⟨rel, by simp_all [List.isEmpty_iff]⟩
  · split
    · exact ⟨rel, rfl⟩
    · exact ⟨'/' :: rel, rfl⟩

theorem normalizeSep_append (a b : List Char) :
    normalizeSep (a ++ b) = normalizeSep a ++ normalizeSep b :=
  List.map_append _ a b

theorem isExcluded_joinPath (packer : SystemUploadPacker) (dir rel : List Char)
    (h : isExcluded packer dir = true) :
    isExcluded packer (joinPath dir rel) = true := by
  rw [isExcluded_iff] at h ⊢
  obtain ⟨pat, hmem, pre, post, hsplit⟩ := h
  obtain ⟨u, hu⟩ := joinPath_eq_append dir rel
  refine ⟨pat, hmem, pre, post ++ normalizeSep u, ?_⟩
  rw [hu, normalizeSep_append, hsplit]
  simp

/-! ## dropWhile / strip lemmas -/

theorem head?_dropWhile_not (p : Char → Bool) : ∀ (l : List Char) (a : Char),
    (l.dropWhile p).head? = some a → p a = false := by
  intro l
  induction l with
  | nil => intro a h; simp [List.dropWhile] at h
  | cons x xs ih =>
    intro a h
    rw [List.dropWhile_cons] at h
    split at h
    · exact ih a h
    · next hx =>
      simp only [List.head?_cons, Option.some.injEq] at h
      subst h
      exact Bool.eq_false_iff.mpr hx

theorem exists_append_dropWhile (p : Char → Bool) (l : List Char) :
    ∃ u, l = u ++ l.dropWhile p := by
  obtain ⟨u, hu⟩ := List.dropWhile_suffix p (l := l)
  exact ⟨u, hu.symm⟩

theorem stripChar_getLast? (c : Char) (s : List Char) :
    (stripChar c s).getLast? ≠ some c := by
  unfold stripChar
  rw [List.getLast?_reverse]
  intro h
  have := head?_dropWhile_not (· == c) _ _ h
  simp at this

theorem stripChar_head? (c : Char) (s : List Char) :
    (stripChar c s).head? ≠ some c := by
  obtain ⟨v, hv⟩ := exists_append_dropWhile (· == c) (s.dropWhile (· == c)).reverse
  have htd : s.dropWhile (· == c) =
      ((s.dropWhile (· == c)).reverse.dropWhile (· == c)).reverse ++ v.reverse := by
    have := congrArg List.reverse hv
    simpa using this
  intro hhead
  rw [show stripChar c s
      = ((s.dropWhile (· == c)).reverse.dropWhile (· == c)).reverse from rfl] at hhead
  cases hrev : ((s.dropWhile (· == c)).reverse.dropWhile (· == c)).reverse with
  | nil => rw [hrev] at hhead; simp at hhead
  | cons x xs =>
    rw [hrev] at hhead htd
    simp only [List.head?_cons, Option.some.injEq] at hhead
    have hth : (s.dropWhile (· == c)).head? = some c := by
      rw [htd, List.cons_append]
      simp [hhead]
    have hcc := head?_dropWhile_not (· == c) s c hth
    simp at hcc

theorem stripChar_middle (c : Char) (s : List Char) :
    ∃ u w, s = u ++ stripChar c s ++ w := by
  obtain ⟨u, hu⟩ := exists_append_dropWhile (· == c) s
  obtain ⟨v, hv⟩ := exists_append_dropWhile (· == c) (s.dropWhile (· == c)).reverse
  have htd : s.dropWhile (· == c) =
      ((s.dropWhile (· == c)).reverse.dropWhile (· == c)).reverse ++ v.reverse := by
    have := congrArg List.reverse hv
    simpa using this
  refine ⟨u, v.reverse, ?_⟩
  rw [show stripChar c s
      = ((s.dropWhile (· == c)).reverse.dropWhile (· == c)).reverse from rfl]
  conv_lhs => rw [hu, htd]
  rw [List.append_assoc]

theorem containsSub_of_middle_false (n u m w s : List Char)
    (hs : s = u ++ m ++ w) (hc : containsSub n s = false) :
    containsSub n m = false := by
  by_contra h
  have h' : containsSub n m = true := by
    cases hcm : containsSub n m
    · exact absurd hcm h
    · rfl
  have h2 := containsSub_of_middle n u m w h'
  rw [← hs] at h2
  rw [h2] at hc
  exact absurd hc (by simp)

/-! ## Double-separator lemma -/

theorem char_beq_comm (u w : Char) : (u == w) = (w == u) := by
  by_cases h : u = w
  · subst h; rfl
  · have h' : ¬ w = u := fun e => h e.symm
    simp [h, h']

theorem startsWithList_dslash_cons (x y : Char) (ys : List Char) :
    startsWithList ['/', '/'] (x :: y :: ys) = ((x == '/') && (y == '/')) := by
  show (('/' == x) && (('/' == y) && true)) = ((x == '/') && (y == '/'))
  rw [Bool.and_true, char_beq_comm '/' x, char_beq_comm '/' y]

theorem containsSub_dslash_append : ∀ (p r : List Char),
    containsSub ['/', '/'] p = false → containsSub ['/', '/'] r = false →
    p.getLast? ≠ some '/' → r.head? ≠ some '/' →
    containsSub ['/', '/'] (p ++ '/' :: r) = false := by
  intro p
  induction p with
  | nil =>
    intro r _ hr _ hrh
    simp only [List.nil_append, containsSub, Bool.or_eq_false_iff]
    refine ⟨?_, hr⟩
    cases r with
    | nil => simp [startsWithList]
    | cons x r' =>
      have hx : ¬ x = '/' := by
        intro e
        exact hrh (by simp [e])
      rw [startsWithList_dslash_cons]
      simp [hx]
  | cons a q ih =>
    intro r hp hr hpl hrh
    simp only [containsSub, Bool.or_eq_false_iff] at hp
    obtain ⟨hsw, hq⟩ := hp
    simp only [List.cons_append, containsSub, Bool.or_eq_false_iff]
    cases q with
    | nil =>
      have ha : ¬ a = '/' := by
        intro e
        exact hpl (by simp [e])
      constructor
      · show startsWithList ['/', '/'] (a :: '/' :: r) = false
        rw [startsWithList_dslash_cons]
        simp [ha]
      · exact ih r rfl hr (by simp) hrh
    | cons b q' =>
      have hql : (b :: q').getLast? ≠ some '/' := by
        rwa [List.getLast?_cons_cons] at hpl
      have hrec := ih r hq hr hql hrh
      refine ⟨?_, hrec⟩
      show startsWithList ['/', '/'] (a :: b :: (q' ++ '/' :: r)) = false
      rw [startsWithList_dslash_cons]
      rw [startsWithList_dslash_cons] at hsw
      exact hsw

/-! ## Claims C5, C9, C10: the upload packer -/

/-- C5 (amended): for every source tree and active pattern set, the archive's
entry set equals all files of the tree minus those for which some active
pattern, trimmed of surrounding whitespace, is a substring of the file's
joined path after normalizing path separators to `/`, and minus those whose
file name equals the output archive's name; each remaining file is stored
under its path relative to the source root, optionally prefixed. -/
theorem prepareUpload_entry_set (packer : SystemUploadPacker) (sourceDir : List Char)
    (tree : List (List Char)) (outputFile : List Char) (e : List Char) :
    e ∈ prepareUploadEntries packer sourceDir tree outputFile ↔
      ∃ rel ∈ tree, baseName rel ≠ outputFile ∧
        ¬ (∃ pat ∈ packer.excludePatterns,
            IsSubstrP (trimWs pat) (normalizeSep (joinPath sourceDir rel))) ∧
        e = getUploadFilePath packer rel := by
  unfold prepareUploadEntries
  rw [List.mem_filterMap]
  constructor
  · rintro ⟨rel, hmem, hf⟩
    refine ⟨rel, hmem, ?_⟩
    split at hf
    · next hcond =>
      simp only [Bool.and_eq_true, Bool.not_eq_true'] at hcond
      obtain ⟨h1, h2⟩ := hcond
      refine ⟨?_, ?_, ?_⟩
      · intro e'
        rw [e'] at h1
        simp at h1
      · intro hex
        rw [← isExcluded_iff packer (joinPath sourceDir rel)] at hex
        rw [h2] at hex
        exact absurd hex (by simp)
      · injection hf with h
        exact h.symm
    · exact absurd hf (by simp)
  · rintro ⟨rel, hmem, h1, h2, rfl⟩
    refine ⟨rel, hmem, ?_⟩
    have hb : (baseName rel == outputFile) = false := by
      simp only [beq_eq_false_iff_ne, ne_eq]
      exact h1
    have hx : isExcluded packer (joinPath sourceDir rel) = false := by
      cases hcase : isExcluded packer (joinPath sourceDir rel)
      · rfl
      · exact absurd ((isExcluded_iff _ _).mp hcase) h2
    simp [hb, hx]

/-- C5 counterexample: with only the default patterns active, a tree holding
one file named like the output archive yields an empty archive even though no
exclusion pattern matches the file's path — so the entry set is not
"all files minus the pattern-excluded files" as the claim states. -/
theorem prepareUpload_outputFile_cex :
    prepareUploadEntries (mkUploadPacker [] true []) "src".toList
        ["sigrid-upload.zip".toList] "sigrid-upload.zip".toList = [] ∧
      isExcluded (mkUploadPacker [] true [])
        (joinPath "src".toList "sigrid-upload.zip".toList) = false :=
  ⟨rfl, rfl⟩

/-- C10: the exclusion test runs on the full joined path, which starts with
the caller-supplied source directory: when some active trimmed pattern is a
substring of the normalized source-directory path itself, every file of the
tree is excluded and the archive has no entries. -/
theorem prepareUpload_excluded_sourceDir (packer : SystemUploadPacker)
    (sourceDir outputFile : List Char) (tree : List (List Char))
    (h : ∃ pat ∈ packer.excludePatterns, IsSubstrP (trimWs pat) (normalizeSep sourceDir)) :
    (∀ rel ∈ tree, isExcluded packer (joinPath sourceDir rel) = true) ∧
      prepareUploadEntries packer sourceDir tree outputFile = [] := by
  have hsd : isExcluded packer sourceDir = true := (isExcluded_iff _ _).mpr h
  refine ⟨fun rel _ => isExcluded_joinPath _ _ _ hsd, ?_⟩
  unfold prepareUploadEntries
  rw [List.filterMap_eq_nil_iff]
  intro rel _
  simp [isExcluded_joinPath _ _ _ hsd]

/-- Witness for C10: a source directory under a parent named `build` excludes
the whole tree. -/
theorem prepareUpload_excluded_sourceDir_witness :
    (∀ rel ∈ ["a.py".toList, "b/c.py".toList],
        isExcluded (mkUploadPacker [] true [])
          (joinPath "/home/build/back".toList rel) = true) ∧
      prepareUploadEntries (mkUploadPacker [] true []) "/home/build/back".toList
        ["a.py".toList, "b/c.py".toList] "upload.zip".toList = [] :=
  prepareUpload_excluded_sourceDir (mkUploadPacker [] true []) "/home/build/back".toList
    "upload.zip".toList ["a.py".toList, "b/c.py".toList]
    ⟨"build/".toList, by decide, "/home/".toList, "back".toList, by decide⟩

/-- C9: the configured path argument is normalized by stripping leading and
trailing `/` (so `/backend/` becomes `backend`); an archived entry path is
`prefix/relativePath` for a non-empty normalized value and the bare relative
path otherwise; the entry path neither starts nor ends with `/` and contains
no doubled separator (given a relative path with those same properties, as
`os.walk` produces). -/
theorem pathArg_normalization (userPatterns : List (List Char)) (useRepoHistory : Bool)
    (pathArg rel : List Char)
    (hrelnil : rel ≠ [])
    (hrelh : rel.head? ≠ some '/')
    (hrell : rel.getLast? ≠ some '/')
    (hreld : containsSub ['/', '/'] rel = false)
    (hargd : containsSub ['/', '/'] pathArg = false) :
    ((mkUploadPacker userPatterns useRepoHistory pathArg).pathPfx.head? ≠ some '/'
      ∧ (mkUploadPacker userPatterns useRepoHistory pathArg).pathPfx.getLast? ≠ some '/')
    ∧ stripChar '/' "/backend/".toList = "backend".toList
    ∧ getUploadFilePath (mkUploadPacker userPatterns useRepoHistory pathArg) rel
        = (if (stripChar '/' pathArg).isEmpty then rel
           else stripChar '/' pathArg ++ '/' :: rel)
    ∧ (getUploadFilePath (mkUploadPacker userPatterns useRepoHistory pathArg) rel).head?
        ≠ some '/'
    ∧ (getUploadFilePath (mkUploadPacker userPatterns useRepoHistory pathArg) rel).getLast?
        ≠ some '/'
    ∧ containsSub ['/', '/']
        (getUploadFilePath (mkUploadPacker userPatterns useRepoHistory pathArg) rel) = false := by
  have hph : (stripChar '/' pathArg).head? ≠ some '/' := stripChar_head? '/' pathArg
  have hpl : (stripChar '/' pathArg).getLast? ≠ some '/' := stripChar_getLast? '/' pathArg
  have hpd : containsSub ['/', '/'] (stripChar '/' pathArg) = false := by
    obtain ⟨u, w, hs⟩ := stripChar_middle '/' pathArg
    exact containsSub_of_middle_false _ u _ w _ hs hargd
  have hpathval : getUploadFilePath (mkUploadPacker userPatterns useRepoHistory pathArg) rel
      = (if (stripChar '/' pathArg).isEmpty then rel
         else stripChar '/' pathArg ++ '/' :: rel) := rfl
  refine ⟨⟨hph, hpl⟩, by decide, hpathval, ?_, ?_, ?_⟩
  · rw [hpathval]
    cases hp : stripChar '/' pathArg with
    | nil => simpa using hrelh
    | cons x xs =>
      simp only [List.isEmpty_cons, Bool.false_eq_true, if_false, List.cons_append,
        List.head?_cons]
      rw [hp] at hph
      simpa using hph
  · rw [hpathval]
    cases hp : stripChar '/' pathArg with
    | nil => simpa using hrell
    | cons x xs =>
      simp only [List.isEmpty_cons, Bool.false_eq_true, if_false]
      rw [List.getLast?_append_cons]
      cases rel with
      | nil => exact absurd rfl hrelnil
      | cons y ys =>
        rw [List.getLast?_cons_cons]
        exact hrell
  · rw [hpathval]
    cases hp : stripChar '/' pathArg with
    | nil => simpa using hreld
    | cons x xs =>
      simp only [List.isEmpty_cons, Bool.false_eq_true, if_false]
      have := containsSub_dslash_append (x :: xs) rel (hp ▸ hpd) hreld (hp ▸ hpl) hrelh
      exact this

/-- Witness for C9 at the spec's example prefix `/backend/`. -/
theorem pathArg_normalization_witness :
    (((mkUploadPacker [] true "/backend/".toList).pathPfx.head? ≠ some '/')
      ∧ (mkUploadPacker [] true "/backend/".toList).pathPfx.getLast? ≠ some '/')
    ∧ stripChar '/' "/backend/".toList = "backend".toList
    ∧ getUploadFilePath (mkUploadPacker [] true "/backend/".toList) "a/b.py".toList
        = (if (stripChar '/' "/backend/".toList).isEmpty then "a/b.py".toList
           else stripChar '/' "/backend/".toList ++ '/' :: "a/b.py".toList)
    ∧ (getUploadFilePath (mkUploadPacker [] true "/backend/".toList) "a/b.py".toList).head?
        ≠ some '/'
    ∧ (getUploadFilePath (mkUploadPacker [] true "/backend/".toList) "a/b.py".toList).getLast?
        ≠ some '/'
    ∧ containsSub ['/', '/']
        (getUploadFilePath (mkUploadPacker [] true "/backend/".toList) "a/b.py".toList)
        = false :=
  pathArg_normalization [] true "/backend/".toList "a/b.py".toList
    (by decide) (by decide) (by decide) (by decide) (by decide)

/-! ## Claim C1: the exit-code gate -/

theorem exitCode_eq_zero_iff (ratings : List (String × ℚ)) (target : ℚ) :
    exitCodeReportGenerate ratings target = 0 ↔
      isPassed ratings "MAINTAINABILITY" target = true := by
  unfold exitCodeReportGenerate
  cases h : isPassed ratings "MAINTAINABILITY" target <;> simp [h]

theorem isPassed_iff (ratings : List (String × ℚ)) (metric : String) (target : ℚ) :
    isPassed ratings metric target = true ↔
      ∀ v, ratings.lookup metric = some v → target ≤ v := by
  unfold isPassed
  cases h : ratings.lookup metric with
  | none => simp
  | some v =>
    simp only [decide_eq_true_eq]
    constructor
    · intro h v' hv'
      injection hv' with he
      rw [← he]
      exact h
    · intro h
      exact h v rfl

/-- C1: `ExitCodeReport.generate` makes the process exit non-zero exactly when
the MAINTAINABILITY entry of `newCodeRatings` is present and strictly below
the target; when it is absent or at/above the target the method returns
normally (exit 0).  In particular 3.6 against 3.5 exits 0 and 3.4 against 3.5
exits 1. -/
theorem exitCodeReport_maintainability (ratings : List (String × ℚ)) (target : ℚ) :
    (exitCodeReportGenerate ratings target ≠ 0 ↔
      ∃ v, ratings.lookup "MAINTAINABILITY" = some v ∧ v < target)
    ∧ (exitCodeReportGenerate ratings target = 0 ↔
      ∀ v, ratings.lookup "MAINTAINABILITY" = some v → target ≤ v)
    ∧ exitCodeReportGenerate [("MAINTAINABILITY", (3.6 : ℚ))] (3.5 : ℚ) = 0
    ∧ exitCodeReportGenerate [("MAINTAINABILITY", (3.4 : ℚ))] (3.5 : ℚ) = 1 := by
  have h2 := (exitCode_eq_zero_iff ratings target).trans (isPassed_iff ratings _ target)
  refine ⟨?_, h2, ?_, ?_⟩
  · constructor
    · intro hne
      have hnot : ¬ ∀ v, ratings.lookup "MAINTAINABILITY" = some v → target ≤ v :=
        fun hall => hne (h2.mpr hall)
      push_neg at hnot
      exact hnot
    · rintro ⟨v, hv, hlt⟩ h0
      exact absurd hlt (not_lt.mpr (h2.mp h0 v hv))
  · norm_num [exitCodeReportGenerate, isPassed, List.lookup]
  · norm_num [exitCodeReportGenerate, isPassed, List.lookup]

/-! ## Claim C6: the size cap -/

theorem pyRound_eq_of_lt (q : ℚ) (n : ℤ) (h1 : ⌊q⌋ = n) (h2 : q - (n : ℚ) < 1/2) :
    pyRound q = n := by
  unfold pyRound
  rw [h1, if_pos h2]

theorem pyRound_eq_of_gt (q : ℚ) (n : ℤ) (h1 : ⌊q⌋ = n) (h2 : (1/2 : ℚ) < q - (n : ℚ)) :
    pyRound q = n + 1 := by
  unfold pyRound
  rw [h1, if_neg (by exact not_lt.mpr (le_of_lt h2)), if_pos h2]

theorem uploadSizeMB_1500000 : uploadSizeMB 1500000 = 1 := by
  unfold uploadSizeMB
  rw [pyRound_eq_of_lt _ 1 (by rw [Int.floor_eq_iff]; constructor <;> norm_num) (by norm_num)]
  exact max_self 1

theorem uploadSizeMB_2000000 : uploadSizeMB 2000000 = 2 := by
  unfold uploadSizeMB
  rw [pyRound_eq_of_gt _ 1 (by rw [Int.floor_eq_iff]; constructor <;> norm_num) (by norm_num)]
  rfl

theorem submitUpload_fst_ne_sizeError (b : ℕ) (m : ℤ) (lr : ℕ → RawResponse) (us : ℕ)
    (hn : ¬ uploadSizeMB b > m) :
    (submitUpload b m lr us).1 ≠ .sizeError := by
  unfold submitUpload
  rw [if_neg hn]
  split <;> (try split) <;> (try split) <;> simp

/-- C6 (amended): `prepareUpload` raises the size error exactly when the
written archive's byte size, converted to whole megabytes with Python
rounding (ties to even, minimum 1 MB), exceeds the cap, and `submitUpload`
then performs zero network requests; a 2,000,000-byte archive against a 1 MB
cap fails this way before any network interaction.  The check applies to the
size of the zip file actually written, not to the uncompressed content. -/
theorem submitUpload_size_gate (archiveSizeBytes : ℕ) (maxMB : ℤ)
    (locResponses : ℕ → RawResponse) (uploadStatus : ℕ) :
    (submitUpload archiveSizeBytes maxMB locResponses uploadStatus = (.sizeError, 0) ↔
      maxMB < uploadSizeMB archiveSizeBytes)
    ∧ submitUpload 2000000 1 locResponses uploadStatus = (.sizeError, 0) := by
  constructor
  · constructor
    · intro h
      by_contra hn
      exact submitUpload_fst_ne_sizeError archiveSizeBytes maxMB locResponses uploadStatus hn
        (by rw [h])
    · intro h
      unfold submitUpload
      rw [if_pos h]
  · have h2 : (1 : ℤ) < uploadSizeMB 2000000 := by
      rw [uploadSizeMB_2000000]
      norm_num
    unfold submitUpload
    rw [if_pos h2]

/-- C6 counterexample: an archive of 1,500,000 bytes exceeds a 1 MB cap
(1,048,576 bytes) byte-wise, yet no error is raised and the run proceeds to
the network (two requests, location and upload): the code compares the size
rounded to whole megabytes, not the byte size, against the cap. -/
theorem submitUpload_size_cex :
    1 * 1048576 < 1500000
    ∧ uploadSizeMB 1500000 = 1
    ∧ submitUpload 1500000 1
        (fun _ => RawResponse.withBody (BodyContent.jsonVal
          (Json.obj [("uploadUrl", Json.str "u"), ("ciRunId", Json.str "id")]))) 200
      = (SubmitOutcome.submitted (Json.str "id"), 2) := by
  refine ⟨by norm_num, uploadSizeMB_1500000, ?_⟩
  unfold submitUpload
  rw [if_neg (by rw [uploadSizeMB_1500000]; norm_num)]
  rfl

/-! ## Claim C7: refactoring-candidate merge -/

/-- C7 counterexample: a payload giving candidates only in the current
list-shaped form, with no legacy `refactoringCandidatesPerType` key at all,
makes `getRefactoringCandidates` raise `KeyError` instead of returning the
current-form candidates for the queried metric. -/
theorem getRefactoringCandidates_missing_legacy_cex :
    getRefactoringCandidates (some [⟨"a", "introduced", "X"⟩]) none "X" = Except.error ()
    ∧ getRefactoringCandidates (some [⟨"a", "introduced", "X"⟩]) none "X"
        ≠ Except.ok [⟨"a", "introduced", "X"⟩] := by
  refine ⟨rfl, ?_⟩
  intro h
  simp [getRefactoringCandidates] at h

/-- C7 (amended): provided the legacy map-shaped field is present (possibly
empty), the result is exactly the current-form candidates whose metric equals
the queried metric, in order, followed by the legacy entries for that metric
converted to `{subject, category: "introduced", metric}`; the repository
test's payload yields two candidates for UNIT_SIZE (current-form first) and
none for UNIT_COMPLEXITY. -/
theorem getRefactoringCandidates_merge (rcField : Option (List RefactoringCandidate))
    (perType : List (String × List String)) (metric : String) :
    (getRefactoringCandidates rcField (some perType) metric =
      Except.ok (((rcField.getD []).filter fun rc => rc.metric == metric) ++
        ((perType.lookup metric).getD []).map fun subject => ⟨subject, "introduced", metric⟩))
    ∧ getRefactoringCandidates
        (some [⟨"a/b.java::Duif.vuur()", "introduced", "UNIT_SIZE"⟩])
        (some [("UNIT_SIZE", ["aap"])]) "UNIT_SIZE" =
      Except.ok [⟨"a/b.java::Duif.vuur()", "introduced", "UNIT_SIZE"⟩,
        ⟨"aap", "introduced", "UNIT_SIZE"⟩]
    ∧ getRefactoringCandidates
        (some [⟨"a/b.java::Duif.vuur()", "introduced", "UNIT_SIZE"⟩])
        (some [("UNIT_SIZE", ["aap"])]) "UNIT_COMPLEXITY" = Except.ok [] :=
  ⟨rfl, rfl, rfl⟩

/-! ## Claim C8: request headers -/

/-- C8 counterexample: the code uses `base64.urlsafe_b64encode`, not the
standard alphabet; for account `a` and token `~~` the header differs from
`"Basic "` + standard Base64 of `a:~~`. -/
theorem authHeader_standard_cex :
    authHeaderValue "a" "~~"
      ≠ "Basic ".toList ++ b64Blocks b64CharStd (utf8Bytes ("a" ++ ":" ++ "~~")) := by
  decide

/-- C8 (amended): every request built by `callSigridAPI` carries
`Accept: application/json` and an Authorization header whose value is
`"Basic "` followed by the URL-safe Base64 encoding (RFC 4648 section 5) of
the UTF-8 bytes of `account:token`. -/
theorem callSigridAPI_headers (url account token : String) :
    (buildSigridRequest url account token).headers.lookup "Accept"
        = some "application/json".toList
    ∧ (buildSigridRequest url account token).headers.lookup "Authorization"
        = some ("Basic ".toList ++ b64Blocks b64CharUrl (utf8Bytes (account ++ ":" ++ token))) :=
  ⟨rfl, rfl⟩

/-! ## Claims C2, C3, C4: polling and retry policies -/

theorem fetchGo_transient_step (responses : ℕ → RawResponse) (attempt rem : ℕ)
    (h : transientResp (responses attempt) = true) :
    fetchGo responses attempt (rem + 1) = pollDelay (fetchGo responses (attempt + 1) rem) := by
  cases hr : responses attempt with
  | noContent => simp [fetchGo, hr, callSigridAPI, isEmptyObj]
  | httpError c =>
    rw [hr] at h
    simp only [transientResp, beq_iff_eq] at h
    subst h
    simp [fetchGo, hr, callSigridAPI, processHttpError]
  | withBody b =>
    cases b with
    | emptyBody => simp [fetchGo, hr, callSigridAPI, isEmptyObj]
    | malformed => simp [fetchGo, hr, callSigridAPI]
    | jsonVal v =>
      rw [hr] at h
      simp only [transientResp] at h
      simp [fetchGo, hr, callSigridAPI, h]

theorem fetchGo_transient_chain (responses : ℕ → RawResponse) :
    ∀ (k attempt rem : ℕ), (∀ i, i < k → transientResp (responses (attempt + i)) = true) →
    fetchGo responses attempt (k + rem) =
      ⟨(fetchGo responses (attempt + k) rem).outcome,
       (fetchGo responses (attempt + k) rem).calls + k,
       List.replicate k 60 ++ (fetchGo responses (attempt + k) rem).sleeps⟩ := by
  intro k
  induction k with
  | zero =>
    intro attempt rem _
    simp
  | succ k ih =>
    intro attempt rem h
    have h0 : transientResp (responses attempt) = true := by
      have := h 0 (Nat.succ_pos k)
      simpa using this
    have hstep : fetchGo responses attempt (k + 1 + rem)
        = pollDelay (fetchGo responses (attempt + 1) (k + rem)) := by
      rw [show k + 1 + rem = (k + rem) + 1 by omega]
      exact fetchGo_transient_step responses attempt (k + rem) h0
    rw [hstep]
    have hih := ih (attempt + 1) rem (fun i hi => by
      have hh := h (i + 1) (by omega)
      rw [show attempt + 1 + i = attempt + (i + 1) by omega]
      exact hh)
    rw [hih]
    rw [show attempt + (k + 1) = attempt + 1 + k by omega]
    simp [pollDelay, List.replicate_succ, Nat.add_assoc]

/-- C2: during polling, HTTP 204, an empty body, an empty-object payload,
HTTP 404, and a malformed JSON body are each transient: the loop sleeps 60
seconds and polls again; the first non-empty well-formed payload is returned
as the success; after 30 such transient attempts the process exits with a
failure status (`sys.exit(1)`, the `exitTimeout` outcome). -/
theorem fetchAnalysisResults_polling (responses : ℕ → RawResponse) (k : ℕ) (v : Json)
    (htrans : ∀ i, i < k → transientResp (responses i) = true) :
    (k < 30 → responses k = RawResponse.withBody (BodyContent.jsonVal v) →
      isEmptyObj v = false →
      fetchAnalysisResults responses = ⟨.success v, k + 1, List.replicate k 60⟩)
    ∧ (k = 30 →
      fetchAnalysisResults responses = ⟨.exitTimeout, 30, List.replicate 30 60⟩) := by
  constructor
  · intro hk hresp hne
    have hchain := fetchGo_transient_chain responses k 0 (30 - k)
      (fun i hi => by simpa using htrans i hi)
    unfold fetchAnalysisResults
    rw [show (30 : ℕ) = k + (30 - k) by omega, hchain]
    rw [show (30 : ℕ) - k = (29 - k) + 1 by omega, Nat.zero_add]
    simp [fetchGo, hresp, callSigridAPI, hne, Nat.add_comm]
  · intro hk
    subst hk
    have hchain := fetchGo_transient_chain responses 30 0 0
      (fun i hi => by simpa using htrans i hi)
    unfold fetchAnalysisResults
    have h0 : fetchGo responses 0 30 = fetchGo responses 0 (30 + 0) := rfl
    rw [h0, hchain]
    simp [fetchGo]

/-- Witness for C2: two 404 responses, then the payload, returned after two
60-second sleeps; three requests in total. -/
theorem fetchAnalysisResults_polling_witness :
    fetchAnalysisResults pollTraceW
      = ⟨.success (Json.obj [("ok", Json.null)]), 3, List.replicate 2 60⟩ :=
  (fetchAnalysisResults_polling pollTraceW 2 (Json.obj [("ok", Json.null)])
      (by decide)).1 (by norm_num) rfl rfl

theorem obtainGo_502_step (responses : ℕ → RawResponse) (attempt rem : ℕ)
    (h : responses attempt = RawResponse.httpError 502) :
    obtainGo responses attempt (rem + 1) = pollDelay (obtainGo responses (attempt + 1) rem) := by
  simp [obtainGo, h, callSigridAPI]

theorem obtainGo_404_step (responses : ℕ → RawResponse) (attempt rem : ℕ)
    (h : responses attempt = RawResponse.httpError 404) :
    obtainGo responses attempt (rem + 1) = retryNow (obtainGo responses (attempt + 1) rem) := by
  simp [obtainGo, h, callSigridAPI, processHttpError]

theorem obtainGo_502_chain (responses : ℕ → RawResponse) :
    ∀ (k attempt rem : ℕ), (∀ i, i < k → responses (attempt + i) = RawResponse.httpError 502) →
    obtainGo responses attempt (k + rem) =
      ⟨(obtainGo responses (attempt + k) rem).outcome,
       (obtainGo responses (attempt + k) rem).calls + k,
       List.replicate k 60 ++ (obtainGo responses (attempt + k) rem).sleeps⟩ := by
  intro k
  induction k with
  | zero =>
    intro attempt rem _
    simp
  | succ k ih =>
    intro attempt rem h
    have h0 : responses attempt = RawResponse.httpError 502 := by
      have := h 0 (Nat.succ_pos k)
      simpa using this
    have hstep : obtainGo responses attempt (k + 1 + rem)
        = pollDelay (obtainGo responses (attempt + 1) (k + rem)) := by
      rw [show k + 1 + rem = (k + rem) + 1 by omega]
      exact obtainGo_502_step responses attempt (k + rem) h0
    rw [hstep]
    have hih := ih (attempt + 1) rem (fun i hi => by
      have hh := h (i + 1) (by omega)
      rw [show attempt + 1 + i = attempt + (i + 1) by omega]
      exact hh)
    rw [hih]
    rw [show attempt + (k + 1) = attempt + 1 + k by omega]
    simp [pollDelay, List.replicate_succ, Nat.add_assoc]

theorem obtainGo_404_chain (responses : ℕ → RawResponse) :
    ∀ (k attempt rem : ℕ), (∀ i, i < k → responses (attempt + i) = RawResponse.httpError 404) →
    obtainGo responses attempt (k + rem) =
      ⟨(obtainGo responses (attempt + k) rem).outcome,
       (obtainGo responses (attempt + k) rem).calls + k,
       (obtainGo responses (attempt + k) rem).sleeps⟩ := by
  intro k
  induction k with
  | zero =>
    intro attempt rem _
    simp
  | succ k ih =>
    intro attempt rem h
    have h0 : responses attempt = RawResponse.httpError 404 := by
      have := h 0 (Nat.succ_pos k)
      simpa using this
    have hstep : obtainGo responses attempt (k + 1 + rem)
        = retryNow (obtainGo responses (attempt + 1) (k + rem)) := by
      rw [show k + 1 + rem = (k + rem) + 1 by omega]
      exact obtainGo_404_step responses attempt (k + rem) h0
    rw [hstep]
    have hih := ih (attempt + 1) rem (fun i hi => by
      have hh := h (i + 1) (by omega)
      rw [show attempt + 1 + i = attempt + (i + 1) by omega]
      exact hh)
    rw [hih]
    rw [show attempt + (k + 1) = attempt + 1 + k by omega]
    simp [retryNow, Nat.add_assoc]

/-- C3 (amended): in the location request, HTTP 502 is retried with a
60-second sleep, and HTTP 404 also leads to another attempt — immediately,
with no sleep, because `processHttpError` returns normally for 404; both
exhaust the 5 attempts and exit with failure.  Every other classification is
applied on the first response: 401/403 and other statuses at/above 500 exit
at once, any other status below 500 raises.  (The claim that 502 is the
*only* status causing another location-request attempt is false — see the
counterexample.) -/
theorem obtainUploadLocation_retry_policy (responses : ℕ → RawResponse) (c : ℕ) :
    ((∀ i, i < 5 → responses i = RawResponse.httpError 502) →
      obtainUploadLocation responses = ⟨.exitUnavailable, 5, List.replicate 5 60⟩)
    ∧ ((∀ i, i < 5 → responses i = RawResponse.httpError 404) →
      obtainUploadLocation responses = ⟨.exitUnavailable, 5, []⟩)
    ∧ (responses 0 = RawResponse.httpError c → c ≠ 502 →
        (c = 401 ∨ c = 403 ∨ 500 ≤ c) →
      obtainUploadLocation responses = ⟨.exitFatal, 1, []⟩)
    ∧ (responses 0 = RawResponse.httpError c → c ≠ 401 → c ≠ 403 → c ≠ 404 → c < 500 →
      obtainUploadLocation responses = ⟨.exception, 1, []⟩) := by
  refine ⟨?_, ?_, ?_, ?_⟩
  · intro hall
    have hchain := obtainGo_502_chain responses 5 0 0 (fun i hi => by simpa using hall i hi)
    unfold obtainUploadLocation
    have h0 : obtainGo responses 0 5 = obtainGo responses 0 (5 + 0) := rfl
    rw [h0, hchain]
    simp [obtainGo]
  · intro hall
    have hchain := obtainGo_404_chain responses 5 0 0 (fun i hi => by simpa using hall i hi)
    unfold obtainUploadLocation
    have h0 : obtainGo responses 0 5 = obtainGo responses 0 (5 + 0) := rfl
    rw [h0, hchain]
    simp [obtainGo]
  · intro h0 hne502 hclass
    unfold obtainUploadLocation
    show obtainGo responses 0 (4 + 1) = _
    rcases hclass with hc | hc | hc
    · subst hc
      simp [obtainGo, h0, callSigridAPI, processHttpError]
    · subst hc
      simp [obtainGo, h0, callSigridAPI, processHttpError]
    · have h401 : c ≠ 401 := by omega
      have h403 : c ≠ 403 := by omega
      have h404 : c ≠ 404 := by omega
      simp [obtainGo, h0, callSigridAPI, processHttpError, hne502, h401, h403, h404, hc]
  · intro h0 h401 h403 h404 hlt
    have hne502 : c ≠ 502 := by omega
    have h500 : ¬ (500 ≤ c) := by omega
    unfold obtainUploadLocation
    show obtainGo responses 0 (4 + 1) = _
    simp [obtainGo, h0, callSigridAPI, processHttpError, hne502, h401, h403, h404, h500]

/-- C3 counterexample: with every location response an HTTP 404, the code
performs all 5 location-request attempts (with no sleep) before exiting — so
502 is not the only status that leads to another location-request attempt. -/
theorem obtainUploadLocation_404_cex :
    obtainUploadLocation (fun _ => RawResponse.httpError 404) = ⟨.exitUnavailable, 5, []⟩
    ∧ (obtainUploadLocation (fun _ => RawResponse.httpError 404)).calls ≠ 1 := by
  constructor
  · rfl
  · intro h
    rw [show (obtainUploadLocation (fun _ => RawResponse.httpError 404)).calls = 5 from rfl] at h
    exact absurd h (by norm_num)

/-- C4: an HTTP 401 or 403 response is fatal at every stage with no retry:
`processHttpError` exits the process; the location request and the polling
loop terminate after that single request with the `exitFatal` outcome
(`sys.exit(1)`); during the upload `urllib` raises `HTTPError`, which no
caller catches, so the run dies with a failure exit status. -/
theorem auth_errors_fatal (c : ℕ) (responses : ℕ → RawResponse)
    (hc : c = 401 ∨ c = 403) (h0 : responses 0 = RawResponse.httpError c) :
    processHttpError c = .exitRun
    ∧ obtainUploadLocation responses = ⟨.exitFatal, 1, []⟩
    ∧ fetchAnalysisResults responses = ⟨.exitFatal, 1, []⟩
    ∧ uploadBinaryFile c = Except.error () := by
  have hobt : obtainUploadLocation responses = ⟨.exitFatal, 1, []⟩ := by
    unfold obtainUploadLocation
    show obtainGo responses 0 (4 + 1) = _
    rcases hc with rfl | rfl <;>
      simp [obtainGo, h0, callSigridAPI, processHttpError]
  have hfetch : fetchAnalysisResults responses = ⟨.exitFatal, 1, []⟩ := by
    unfold fetchAnalysisResults
    show fetchGo responses 0 (29 + 1) = _
    rcases hc with rfl | rfl <;>
      simp [fetchGo, h0, callSigridAPI, processHttpError]
  rcases hc with rfl | rfl
  · exact ⟨rfl, hobt, hfetch, rfl⟩
  · exact ⟨rfl, hobt, hfetch, rfl⟩

/-- Witness for C4 at HTTP 401. -/
theorem auth_errors_fatal_witness :
    processHttpError 401 = .exitRun
    ∧ obtainUploadLocation (fun _ => RawResponse.httpError 401) = ⟨.exitFatal, 1, []⟩
    ∧ fetchAnalysisResults (fun _ => RawResponse.httpError 401) = ⟨.exitFatal, 1, []⟩
    ∧ uploadBinaryFile 401 = Except.error () :=
  auth_errors_fatal 401 (fun _ => RawResponse.httpError 401) (Or.inl rfl) rfl

end Sigridci
